import Mathlib

/-
Verification of the microLED strip/matrix driver (microLED.h) and the
alternate AdafruitMyPixel backend (AdafruitMyPixel.cpp).

Shallow embedding conventions:
  * C `int` / `long` arithmetic is modelled over ℤ (all values involved stay
    far inside the machine ranges, noted pointwise where it matters);
    unsigned byte/word values are modelled over ℕ with explicit masks or
    `% 2^w` where a C conversion truncates.
  * Arrays indexed out of bounds in C are modelled by total memories
    `ℕ → value`, so that an out-of-range write is observable.
  * The repository ships `microLED.h` but not its companion headers
    `color_utility.h` / `types.h`; the few helpers taken from there
    (the pixel value type and the per-channel brightness scaler) are
    modelled from the spec and marked as such.
-/

namespace MicroLED

/-- Modelled from the spec: `mData` (defined in the missing `color_utility.h`)
at the default COLOR_DEBTH 3, i.e. a 24-bit color with three 8-bit channels
(spec section 3: 24-bit width = 8 bits per channel, exact). -/
structure mData where
  r : ℕ
  g : ℕ
  b : ℕ
deriving DecidableEq

/-- Modelled from the spec: the per-channel brightness scaler behind
`fade8R/G/B` (missing `color_utility.h`): a linear per-channel scale by
factor/255 with truncation (spec sections 4.1 and 4.4: channel value scaled
by requestedBrightness/255; rounding by truncation). -/
def fade8 (c bright : ℕ) : ℕ := c * bright / 255

/-- Interrupt-masking policy `M_ISR` (from the missing `types.h`; the four
constant names appear throughout microLED.h, their numeric values are never
used). -/
inductive M_ISR where
  | CLI_OFF
  | CLI_LOW
  | CLI_AVER
  | CLI_HIGH
deriving DecidableEq

/-- Chip family `M_chip` (from the missing `types.h`; only compared for
equality in microLED.h). -/
inductive M_chip where
  | LED_WS2811
  | LED_WS2812
  | LED_WS2813
  | LED_WS2815
  | LED_WS2818
  | LED_WS6812
  | LED_APA102
  | LED_APA102_SPI
deriving DecidableEq

/-- Per-chip `oneLedMax` constant as assigned by `init()` (microLED.h lines
123-129); chips not listed in the switch keep the field initializer 46. -/
def oneLedMax : M_chip → ℕ
  | M_chip.LED_WS2811 => 46
  | M_chip.LED_WS2812 => 30
  | M_chip.LED_WS2813 => 30
  | M_chip.LED_WS2815 => 10
  | M_chip.LED_WS2818 => 46
  | _ => 46

/-- Per-chip `oneLedIdle` constant as assigned by `init()`; chips not listed
in the switch keep the field initializer 2000. -/
def oneLedIdle : M_chip → ℕ
  | M_chip.LED_WS2811 => 2000
  | M_chip.LED_WS2812 => 660
  | M_chip.LED_WS2813 => 1266
  | M_chip.LED_WS2815 => 1753
  | M_chip.LED_WS2818 => 1900
  | _ => 2000

/-- The `switch (_matrixConfig)` of `getPixNumber` (microLED.h lines 188-197):
maps the raw (x, y) to the canonical (thisX, thisY) pair. The source leaves
thisX/thisY uninitialized for the eight unhandled config codes; the default
branch here is arbitrary (identity) and every theorem below restricts to the
eight handled codes 0, 1, 4, 7, 10, 11, 13, 14. -/
def thisXY (cfg : ℕ) (w h : ℤ) (p : ℤ × ℤ) : ℤ × ℤ :=
  if cfg = 0 then (p.1, p.2)
  else if cfg = 4 then (p.2, p.1)
  else if cfg = 1 then (p.1, h - p.2 - 1)
  else if cfg = 13 then (h - p.2 - 1, p.1)
  else if cfg = 10 then (w - p.1 - 1, h - p.2 - 1)
  else if cfg = 14 then (h - p.2 - 1, w - p.1 - 1)
  else if cfg = 11 then (w - p.1 - 1, p.2)
  else if cfg = 7 then (p.2, w - p.1 - 1)
  else (p.1, p.2)

/-- `_matrixW` as assigned by the matrix constructor (microLED.h lines
145-146): the height for the four axis-swapping configs, else the width. -/
def matrixW (cfg : ℕ) (w h : ℤ) : ℤ :=
  if cfg = 4 ∨ cfg = 13 ∨ cfg = 14 ∨ cfg = 7 then h else w

/-- The final index computation of `getPixNumber` (microLED.h lines 199-202):
forward row when the matrix type is nonzero (row-major) or the canonical row
is even, reversed row otherwise. -/
def rowIndex (mtype : ℕ) (rw : ℤ) (q : ℤ × ℤ) : ℤ :=
  if mtype ≠ 0 ∨ q.2 % 2 = 0 then q.2 * rw + q.1
  else q.2 * rw + rw - q.1 - 1

/-- `getPixNumber` before the `uint16_t` return conversion: the row index of
the transformed coordinates. The `int` arithmetic cannot overflow for the
uint8_t-sized dimensions of the class. -/
def getPixRaw (cfg mtype : ℕ) (w h x y : ℤ) : ℤ :=
  rowIndex mtype (matrixW cfg w h) (thisXY cfg w h (x, y))

/-- `uint16_t getPixNumber(int x, int y)` (microLED.h lines 186-203): the
return value after the C conversion to uint16_t (reduction mod 2^16). -/
def getPixNumber (cfg mtype : ℕ) (w h x y : ℤ) : ℤ :=
  getPixRaw cfg mtype w h x y % 65536

/-- `void set(int x, int y, mData color)` (microLED.h lines 205-208) over a
total pixel memory, so that writes past `leds[amount-1]` are observable.
The guard is the source's literal condition, including the `x * y >= amount`
term. -/
def set2D (cfg mtype : ℕ) (w h amount : ℤ) (leds : ℕ → mData)
    (x y : ℤ) (color : mData) : ℕ → mData :=
  if x * y ≥ amount ∨ x < 0 ∨ y < 0 ∨ x ≥ w ∨ y ≥ h then leds
  else fun i => if i = (getPixNumber cfg mtype w h x y).toNat then color else leds i

/-- The per-pixel channel accumulation of `correctBright` (microLED.h lines
241-246): sum of the three brightness-scaled channels over the buffer.
The accumulator is a C `long`; with byte channels the total stays far below
2^31 for any realistic buffer, so plain ℕ arithmetic is faithful. -/
def channelSum (leds : List mData) (bright : ℕ) : ℕ :=
  (leds.map (fun c => fade8 c.r bright + fade8 c.g bright + fade8 c.b bright)).sum

/-- The scaled "active current" `sum = ((long)sum >> 8) * oneLedMax / 3`
(microLED.h line 248). -/
def activeCurrent (ledMax : ℕ) (leds : List mData) (bright : ℕ) : ℕ :=
  channelSum leds bright / 256 * ledMax / 3

/-- The "idle current" `idle = (long)oneLedIdle * amount / 1000`
(microLED.h line 249). -/
def idleCurrent (ledIdle amount : ℕ) : ℕ :=
  ledIdle * amount / 1000

/-- `uint8_t correctBright(uint8_t bright)` (microLED.h lines 240-253).
The last branch models `(float)(_maxCurrent - idle) * bright / sum` followed
by the implicit conversion to the uint8_t return type: the float products are
exact (magnitudes below 2^24) and float-to-integer conversion truncates
toward zero, hence `Int.tdiv`.  The conversion of the truncated value to
uint8_t is the identity whenever the value lies in [0, 255] and is undefined
behavior for negative values, so the definition keeps the pre-conversion
integer value. -/
def correctBright (ledMax ledIdle : ℕ) (maxCurrent : ℤ) (leds : List mData)
    (bright : ℕ) : ℤ :=
  let sum : ℤ := activeCurrent ledMax leds bright
  let idle : ℤ := idleCurrent ledIdle leds.length
  if sum = 0 then bright
  else if sum + idle < maxCurrent then bright
  else Int.tdiv ((maxCurrent - idle) * bright) sum

/-- Controller state for the output path: the pixel buffer, the parallel
white-channel buffer, the stored and effective brightness, the current
budget, the AVR status register SREG with its saved copy, and the stream of
raw bytes handed to the wire (the pin registers and pulse timing are outside
the model). -/
structure StripState where
  leds : List mData
  white : List ℕ
  bright : ℕ
  showBright : ℕ
  maxCurrent : ℤ
  sreg : ℕ
  sregSave : ℕ
  out : List ℕ

/-- `cli()` clears the global interrupt flag, bit 7 of SREG. -/
def cliSreg (s : ℕ) : ℕ := s &&& 127

/-- `void sendRaw(byte data)` (microLED.h lines 303-401): under CLI_LOW the
byte transmission is wrapped in save-SREG / cli / restore-SREG; every chip
branch then shifts the byte out on the wire (the per-bit pulse shapes are
not modelled, only the emitted byte). -/
def sendRaw (isr : M_ISR) (st : StripState) (data : ℕ) : StripState :=
  let st1 := if isr = M_ISR.CLI_LOW then
    { st with sregSave := st.sreg, sreg := cliSreg st.sreg } else st
  let st2 := { st1 with out := st1.out ++ [data] }
  if isr = M_ISR.CLI_LOW then { st2 with sreg := st2.sregSave } else st2

/-- The `data[3]` byte-order shuffle of `send` (microLED.h lines 281-285):
a three-byte array written at the offsets packed in `order`.  `List.set`
out of range is a no-op; the library's order constants only use offsets
0-2, matching the C array bound. -/
def orderBytes (order rv gv bv : ℕ) : List ℕ :=
  (([0, 0, 0].set ((order >>> 4) &&& 3) rv).set ((order >>> 2) &&& 3) gv).set
    (order &&& 3) bv

/-- `void send(mData color, byte thisWhite)` (microLED.h lines 280-301):
channel reorder and brightness fade, optional CLI_AVER critical section,
APA102 start byte, the three (or four) raw bytes.  `systemUptimePoll` is an
external millis-keeping hook with no effect on the modelled state. -/
def send (chip : M_chip) (order : ℕ) (isr : M_ISR) (st : StripState)
    (color : mData) (thisWhite : ℕ) : StripState :=
  let data := orderBytes order (fade8 color.r st.showBright)
    (fade8 color.g st.showBright) (fade8 color.b st.showBright)
  let w := if chip = M_chip.LED_WS6812 then fade8 thisWhite st.showBright
    else thisWhite
  let st1 := if isr = M_ISR.CLI_AVER then
    { st with sregSave := st.sreg, sreg := cliSreg st.sreg } else st
  let st2 := if chip = M_chip.LED_APA102 ∨ chip = M_chip.LED_APA102_SPI then
    sendRaw isr st1 255 else st1
  let st3 := data.foldl (sendRaw isr) st2
  let st4 := if chip = M_chip.LED_WS6812 then sendRaw isr st3 w else st3
  if isr = M_ISR.CLI_AVER then { st4 with sreg := st4.sregSave } else st4

/-- `void begin()` (microLED.h lines 256-270): loads `_showBright` from
`_bright`, opens the CLI_HIGH critical section, and for the clocked family
emits the 4-byte start frame (the pin mask snapshot is outside the model). -/
def beginFrame (chip : M_chip) (isr : M_ISR) (st : StripState) : StripState :=
  let st1 := { st with showBright := st.bright }
  let st2 := if isr = M_ISR.CLI_HIGH then
    { st1 with sregSave := st1.sreg, sreg := cliSreg st1.sreg } else st1
  if chip = M_chip.LED_APA102 ∨ chip = M_chip.LED_APA102_SPI then
    (List.replicate 4 0).foldl (sendRaw isr) st2 else st2

/-- `void end()` (microLED.h lines 403-409): closes the CLI_HIGH critical
section, then for the clocked family emits the 4-byte end frame. -/
def endFrame (chip : M_chip) (isr : M_ISR) (st : StripState) : StripState :=
  let st1 := if isr = M_ISR.CLI_HIGH then { st with sreg := st.sregSave } else st
  if chip = M_chip.LED_APA102 ∨ chip = M_chip.LED_APA102_SPI then
    (List.replicate 4 0).foldl (sendRaw isr) st1 else st1

/-- One iteration of the `show()` output loop: `send(leds[i], white[i])` for
the 4-color chip, `send(leds[i])` (default white 0) otherwise. -/
def showStep (chip : M_chip) (order : ℕ) (isr : M_ISR) (st : StripState)
    (i : ℕ) : StripState :=
  send chip order isr st (st.leds.getD i ⟨0, 0, 0⟩)
    (if chip = M_chip.LED_WS6812 then st.white.getD i 0 else 0)

/-- The middle of `show()` (microLED.h lines 274-276): the current-limited
effective brightness (the uint8_t `_showBright` receives the value of
`correctBright`, identity on its defined range [0, 255], hence `toNat`)
followed by the send loop over the buffer. -/
def showBody (chip : M_chip) (order : ℕ) (isr : M_ISR) (st : StripState) :
    StripState :=
  let st2 := if st.maxCurrent ≠ 0 ∧ st.leds.length ≠ 0 then
    { st with showBright := (correctBright (oneLedMax chip) (oneLedIdle chip)
        st.maxCurrent st.leds st.bright).toNat } else st
  (List.range st2.leds.length).foldl (showStep chip order isr) st2

/-- `void show()` (microLED.h lines 272-278): begin, the current-limit and
send loop body, end. -/
def showFrame (chip : M_chip) (order : ℕ) (isr : M_ISR) (st : StripState) :
    StripState :=
  endFrame chip isr (showBody chip order isr (beginFrame chip isr st))

end MicroLED

namespace AdafruitMyPixel

/-- State of an AdafruitMyPixel strip: pixel count, the 2-bytes-per-pixel
data store (`updateLength` allocates `numBytes = n * 2`), the wrapped
brightness field, and the channel offsets unpacked by `updateType`.  The
pixel bytes are a total byte memory `ℕ → ℕ` so that out-of-range writes
would be observable. -/
structure PixState where
  numLEDs : ℕ
  pixels : ℕ → ℕ
  brightness : ℕ
  rOffset : ℕ
  gOffset : ℕ
  bOffset : ℕ

/-- `void setPixelColor(uint16_t n, uint8_t r, uint8_t g, uint8_t b)`
(AdafruitMyPixel.cpp lines 548-567): bounds check, optional brightness
pre-scale, 5-bit-per-channel packing into the 16-bit `farbe` by channel
offset, and the two byte stores `p[0] = farbe >> 8; p[1] = farbe;`.
All intermediate values fit uint16, so only the final `p[1]` store needs
the uint8 truncation. -/
def setPixelColor (st : PixState) (n r g b : ℕ) : PixState :=
  if n < st.numLEDs then
    let r := if st.brightness ≠ 0 then r * st.brightness / 256 else r
    let g := if st.brightness ≠ 0 then g * st.brightness / 256 else g
    let b := if st.brightness ≠ 0 then b * st.brightness / 256 else b
    let farbe :=
      (((if st.rOffset = 0 then r else if st.gOffset = 0 then g else b) &&& 0xF8) <<< 8) |||
      (((if st.rOffset = 1 then r else if st.gOffset = 1 then g else b) &&& 0xF8) <<< 3) |||
      (((if st.rOffset = 2 then r else if st.gOffset = 2 then g else b) &&& 0xF8) >>> 2)
    { st with pixels := fun a =>
        if a = 2 * n then farbe >>> 8
        else if a = 2 * n + 1 then farbe % 256
        else st.pixels a }
  else st

/-- `void setPixelColor(uint16_t n, uint32_t c)` (AdafruitMyPixel.cpp lines
591-597): unpack the packed color into bytes and delegate. -/
def setPixelColorPacked (st : PixState) (n c : ℕ) : PixState :=
  if n < st.numLEDs then
    setPixelColor st n ((c >>> 16) % 256) ((c >>> 8) % 256) (c % 256)
  else st

/-- `uint32_t getPixelColor(uint16_t n)` (AdafruitMyPixel.cpp lines
744-763): 0 when out of range, else unpack the two stored bytes; the
`uint8_t b = p[1] << 3` store truncates to a byte. -/
def getPixelColor (st : PixState) (n : ℕ) : ℕ :=
  if st.numLEDs ≤ n then 0
  else
    let p0 := st.pixels (2 * n)
    let p1 := st.pixels (2 * n + 1)
    let r := p0 &&& 0xF8
    let g := ((p0 &&& 0x03) <<< 6) ||| ((p1 &&& 0xE0) >>> 2)
    let b := (p1 <<< 3) % 256
    let r := if st.brightness ≠ 0 then r / st.brightness else r
    let g := if st.brightness ≠ 0 then g / st.brightness else g
    let b := if st.brightness ≠ 0 then b / st.brightness else b
    (r <<< 16) ||| (g <<< 8) ||| b

/-- `void fill(uint32_t c, uint16_t first, uint16_t count)`
(AdafruitMyPixel.cpp lines 610-632): early return when `first` is past the
strip, end-of-range computation in uint16 arithmetic (`first + count` wraps
mod 2^16) clamped to `numLEDs`, then the `setPixelColor(i, c)` loop. -/
def fill (st : PixState) (c first count : ℕ) : PixState :=
  if st.numLEDs ≤ first then st
  else
    let e := if count = 0 then st.numLEDs
      else
        let e0 := (first + count) % 65536
        if st.numLEDs < e0 then st.numLEDs else e0
    (List.range' first (e - first)).foldl (fun s i => setPixelColorPacked s i c) st

end AdafruitMyPixel

open MicroLED AdafruitMyPixel

/-- Truncating division agrees with floor division on nonnegative operands;
bridges the modelled float truncation to the ediv of the claims. -/
lemma tdiv_eq_ediv_of_nonneg {a b : ℤ} (ha : 0 ≤ a) (hb : 0 ≤ b) :
    a.tdiv b = a / b := by
  obtain ⟨m, rfl⟩ := Int.eq_ofNat_of_zero_le ha
  obtain ⟨n, rfl⟩ := Int.eq_ofNat_of_zero_le hb
  rw [← Int.ofNat_ediv]
  rfl

/-- A left fold preserves any projection that each step preserves. -/
lemma foldl_proj_eq {α β γ : Type} (proj : α → γ) (f : α → β → α)
    (hf : ∀ s x, proj (f s x) = proj s) :
    ∀ (l : List β) (s : α), proj (List.foldl f s l) = proj s := by
  intro l
  induction l with
  | nil => intro s; rfl
  | cons x xs ih => intro s; rw [List.foldl_cons, ih, hf]

/-- C1.  The 2D `set` is claimed to be a silent no-op whenever the computed
linear index reaches the buffer capacity, and hence never to write outside
`leds[0..N-1]`.  The code instead guards on `x * y >= amount`: on a 3-wide,
2-high zigzag matrix with capacity 3 (width·height > N misconfiguration),
the in-range coordinate (2, 1) has linear index 3 = N, passes the guard
(2·1 < 3), and the write lands one past the end of the buffer. -/
theorem c1_set2D_writes_out_of_bounds :
    MicroLED.set2D 0 0 3 2 3 (fun _ => ⟨0, 0, 0⟩) 2 1 ⟨255, 255, 255⟩ 3
      = ⟨255, 255, 255⟩ ∧
    (MicroLED.getPixNumber 0 0 3 2 2 1).toNat = 3 := by
  constructor
  · decide
  · decide

/-- C2 counterexample.  The claim says the over-budget branch returns the
rescaled brightness clamped to [0, 255].  With two full-white pixels on a
WS2811 strip (idle current 4 mA) and a 1 mA budget, the rescale factor is
negative: the computed value is -10, not the claimed clamp 0 (the C code
converts this negative float to uint8_t, which is undefined behavior, not a
clamp). -/
theorem c2_correctBright_not_clamped :
    MicroLED.correctBright 46 2000 1 (List.replicate 2 ⟨255, 255, 255⟩) 255
      = -10 ∧
    ¬ (0 ≤ MicroLED.correctBright 46 2000 1
        (List.replicate 2 ⟨255, 255, 255⟩) 255) := by
  constructor
  · decide
  · decide

/-- C6.  Round-tripping (r, g, b) = (0, 128, 0) through the 16-bit
`setPixelColor` / `getPixelColor` pair (RGB channel offsets, brightness
scaling disabled) loses the green channel entirely: the encoder packs green
into bits 10..6 of the 16-bit word but the decoder reads bits 9..5, so the
read-back green is 0 and the per-channel error is 128, far above the
claimed 8. -/
theorem c6_roundtrip_failure :
    (AdafruitMyPixel.getPixelColor
        (AdafruitMyPixel.setPixelColor ⟨1, fun _ => 0, 0, 0, 1, 2⟩ 0 0 128 0)
        0 >>> 8) % 256 = 0 ∧
    ¬ (128 - (AdafruitMyPixel.getPixelColor
        (AdafruitMyPixel.setPixelColor ⟨1, fun _ => 0, 0, 0, 1, 2⟩ 0 0 128 0)
        0 >>> 8) % 256 ≤ 8) := by
  constructor
  · decide
  · decide

/-- `setPixelColor` never changes the pixel count. -/
lemma setPixelColor_numLEDs (st : PixState) (n r g b : ℕ) :
    (setPixelColor st n r g b).numLEDs = st.numLEDs := by
  unfold setPixelColor
  split <;> rfl

/-- The packed-color variant never changes the pixel count. -/
lemma setPixelColorPacked_numLEDs (st : PixState) (n c : ℕ) :
    (setPixelColorPacked st n c).numLEDs = st.numLEDs := by
  unfold setPixelColorPacked
  split
  · exact setPixelColor_numLEDs ..
  · rfl

/-- `setPixelColor` leaves every byte at or past `2 * numLEDs` untouched:
an in-range write at pixel n touches only bytes 2n and 2n+1, both below
`2 * numLEDs`. -/
lemma setPixelColor_pixels_high (st : PixState) (n r g b a : ℕ)
    (ha : 2 * st.numLEDs ≤ a) :
    (setPixelColor st n r g b).pixels a = st.pixels a := by
  unfold setPixelColor
  split
  case isTrue hlt =>
    simp only
    rw [if_neg (by omega), if_neg (by omega)]
  case isFalse h => rfl

/-- The packed-color variant leaves every byte at or past `2 * numLEDs`
untouched. -/
lemma setPixelColorPacked_pixels_high (st : PixState) (n c a : ℕ)
    (ha : 2 * st.numLEDs ≤ a) :
    (setPixelColorPacked st n c).pixels a = st.pixels a := by
  unfold setPixelColorPacked
  split
  · exact setPixelColor_pixels_high _ _ _ _ _ _ ha
  · rfl

/-- The `fill` loop leaves every byte at or past `2 * numLEDs` untouched. -/
lemma fill_loop_pixels_high (c a : ℕ) :
    ∀ (l : List ℕ) (s : PixState), 2 * s.numLEDs ≤ a →
      ((l.foldl (fun s i => setPixelColorPacked s i c) s).pixels a = s.pixels a) := by
  intro l
  induction l with
  | nil => intro s _; rfl
  | cons x xs ih =>
    intro s hs
    rw [List.foldl_cons, ih, setPixelColorPacked_pixels_high]
    · exact hs
    · rw [setPixelColorPacked_numLEDs]; exact hs

/-- C9 companion fact is elsewhere; here C10: the alternate backend bounds
checks every per-pixel access at its public interface.  For every index n
at or past `numLEDs`, `setPixelColor` leaves the state unchanged and
`getPixelColor` returns 0; `fill` starting at or past `numLEDs` leaves the
state unchanged, and for any `first`/`count` it never writes any pixel byte
at or past `2 * numLEDs` (i.e. past pixel `numLEDs - 1`). -/
theorem c10_adafruit_bounds (st : PixState) (n r g b c first count a : ℕ) :
    (st.numLEDs ≤ n → setPixelColor st n r g b = st) ∧
    (st.numLEDs ≤ n → getPixelColor st n = 0) ∧
    (st.numLEDs ≤ first → fill st c first count = st) ∧
    (2 * st.numLEDs ≤ a → (fill st c first count).pixels a = st.pixels a) := by
  refine ⟨?_, ?_, ?_, ?_⟩
  · intro h
    unfold setPixelColor
    rw [if_neg (by omega)]
  · intro h
    unfold getPixelColor
    rw [if_pos h]
  · intro h
    unfold fill
    rw [if_pos h]
  · intro h
    unfold fill
    split
    · rfl
    · exact fill_loop_pixels_high c a _ st h

/-- C10 witness: the bounds checks evaluated on a concrete 2-pixel strip. -/
theorem c10_adafruit_bounds_witness :
    (setPixelColor ⟨2, fun _ => 7, 0, 0, 1, 2⟩ 5 9 9 9 = ⟨2, fun _ => 7, 0, 0, 1, 2⟩) ∧
    (getPixelColor ⟨2, fun _ => 7, 0, 0, 1, 2⟩ 5 = 0) ∧
    (fill ⟨2, fun _ => 7, 0, 0, 1, 2⟩ 3 5 4 = ⟨2, fun _ => 7, 0, 0, 1, 2⟩) ∧
    ((fill ⟨2, fun _ => 7, 0, 0, 1, 2⟩ 3 0 0).pixels 4 = 7) := by
  have h := c10_adafruit_bounds ⟨2, fun _ => 7, 0, 0, 1, 2⟩ 5 9 9 9 3 5 4 4
  have h2 := c10_adafruit_bounds ⟨2, fun _ => 7, 0, 0, 1, 2⟩ 5 9 9 9 3 0 0 4
  exact ⟨h.1 (by decide), h.2.1 (by decide), h.2.2.1 (by decide),
    (h2.2.2.2 (by decide)).trans rfl⟩

/-- `sendRaw` restores SREG on every exit path, under every policy. -/
lemma sendRaw_sreg (isr : M_ISR) (st : StripState) (d : ℕ) :
    (sendRaw isr st d).sreg = st.sreg := by
  cases isr <;> simp [sendRaw]

/-- `sendRaw` changes the saved SREG copy only under the per-byte policy. -/
lemma sendRaw_sregSave (isr : M_ISR) (st : StripState) (d : ℕ)
    (h : isr ≠ M_ISR.CLI_LOW) :
    (sendRaw isr st d).sregSave = st.sregSave := by
  cases isr <;> simp_all [sendRaw]

/-- `sendRaw` leaves the user-visible buffers and settings unchanged. -/
lemma sendRaw_userView (isr : M_ISR) (st : StripState) (d : ℕ) :
    (sendRaw isr st d).leds = st.leds ∧ (sendRaw isr st d).white = st.white ∧
    (sendRaw isr st d).bright = st.bright ∧
    (sendRaw isr st d).maxCurrent = st.maxCurrent ∧
    (sendRaw isr st d).showBright = st.showBright := by
  cases isr <;> simp [sendRaw]

/-- `send` restores SREG on every exit path, under every policy. -/
lemma send_sreg (chip : M_chip) (order : ℕ) (isr : M_ISR) (st : StripState)
    (color : mData) (w : ℕ) :
    (send chip order isr st color w).sreg = st.sreg := by
  unfold send
  have hfold : ∀ (l : List ℕ) (s : StripState),
      (l.foldl (sendRaw isr) s).sreg = s.sreg :=
    fun l s => foldl_proj_eq StripState.sreg (sendRaw isr)
      (fun s x => sendRaw_sreg isr s x) l s
  have hfoldSave : ∀ (l : List ℕ) (s : StripState), isr ≠ M_ISR.CLI_LOW →
      (l.foldl (sendRaw isr) s).sregSave = s.sregSave := by
    intro l s h
    exact foldl_proj_eq StripState.sregSave (sendRaw isr)
      (fun s x => sendRaw_sregSave isr s x h) l s
  cases isr <;>
    simp_all only [ne_eq, reduceCtorEq, not_false_eq_true, if_true, if_false,
      ite_true, ite_false, if_neg, if_pos] <;>
    split_ifs <;>
    simp_all [sendRaw_sreg, sendRaw_sregSave]

/-- `send` changes the saved SREG copy only under the per-pixel (or, through
its raw bytes, the per-byte) policy. -/
lemma send_sregSave (chip : M_chip) (order : ℕ) (isr : M_ISR) (st : StripState)
    (color : mData) (w : ℕ)
    (h1 : isr ≠ M_ISR.CLI_LOW) (h2 : isr ≠ M_ISR.CLI_AVER) :
    (send chip order isr st color w).sregSave = st.sregSave := by
  unfold send
  have hfoldSave : ∀ (l : List ℕ) (s : StripState),
      (l.foldl (sendRaw isr) s).sregSave = s.sregSave :=
    fun l s => foldl_proj_eq StripState.sregSave (sendRaw isr)
      (fun s x => sendRaw_sregSave isr s x h1) l s
  cases isr <;>
    simp_all only [ne_eq, reduceCtorEq, not_false_eq_true, not_true_eq_false] <;>
    split_ifs <;>
    simp_all [sendRaw_sregSave]

/-- `send` leaves the user-visible buffers and settings unchanged. -/
lemma send_userView (chip : M_chip) (order : ℕ) (isr : M_ISR) (st : StripState)
    (color : mData) (w : ℕ) :
    (send chip order isr st color w).leds = st.leds ∧
    (send chip order isr st color w).white = st.white ∧
    (send chip order isr st color w).bright = st.bright ∧
    (send chip order isr st color w).maxCurrent = st.maxCurrent ∧
    (send chip order isr st color w).showBright = st.showBright := by
  unfold send
  have hfold : ∀ (l : List ℕ) (s : StripState),
      (l.foldl (sendRaw isr) s).leds = s.leds ∧
      (l.foldl (sendRaw isr) s).white = s.white ∧
      (l.foldl (sendRaw isr) s).bright = s.bright ∧
      (l.foldl (sendRaw isr) s).maxCurrent = s.maxCurrent ∧
      (l.foldl (sendRaw isr) s).showBright = s.showBright := by
    intro l s
    have h1 := foldl_proj_eq StripState.leds (sendRaw isr)
      (fun s x => (sendRaw_userView isr s x).1) l s
    have h2 := foldl_proj_eq StripState.white (sendRaw isr)
      (fun s x => (sendRaw_userView isr s x).2.1) l s
    have h3 := foldl_proj_eq StripState.bright (sendRaw isr)
      (fun s x => (sendRaw_userView isr s x).2.2.1) l s
    have h4 := foldl_proj_eq StripState.maxCurrent (sendRaw isr)
      (fun s x => (sendRaw_userView isr s x).2.2.2.1) l s
    have h5 := foldl_proj_eq StripState.showBright (sendRaw isr)
      (fun s x => (sendRaw_userView isr s x).2.2.2.2) l s
    exact ⟨h1, h2, h3, h4, h5⟩
  cases isr <;>
    (try split_ifs) <;>
    simp_all [sendRaw_userView]

/-- A fold of `sendRaw` preserves SREG. -/
lemma foldl_sendRaw_sreg (isr : M_ISR) (l : List ℕ) (s : StripState) :
    (l.foldl (sendRaw isr) s).sreg = s.sreg :=
  foldl_proj_eq StripState.sreg (sendRaw isr) (fun s x => sendRaw_sreg isr s x) l s

/-- A fold of `sendRaw` preserves the saved SREG copy away from CLI_LOW. -/
lemma foldl_sendRaw_sregSave (isr : M_ISR) (h : isr ≠ M_ISR.CLI_LOW)
    (l : List ℕ) (s : StripState) :
    (l.foldl (sendRaw isr) s).sregSave = s.sregSave :=
  foldl_proj_eq StripState.sregSave (sendRaw isr)
    (fun s x => sendRaw_sregSave isr s x h) l s

/-- Away from the per-frame policy, `begin` leaves SREG unchanged. -/
lemma beginFrame_sreg (chip : M_chip) (isr : M_ISR) (st : StripState)
    (h : isr ≠ M_ISR.CLI_HIGH) :
    (beginFrame chip isr st).sreg = st.sreg := by
  simp only [beginFrame]
  have h1 : ∀ (l : List ℕ) (s2 : StripState),
      (l.foldl (sendRaw isr) s2).sreg = s2.sreg :=
    fun l s2 => foldl_sendRaw_sreg isr l s2
  rw [if_neg h]
  split
  · rw [h1]
  · rfl

/-- Under the per-frame policy, `begin` saves the entry SREG. -/
lemma beginFrame_sregSave (chip : M_chip) (st : StripState) :
    (beginFrame chip M_ISR.CLI_HIGH st).sregSave = st.sreg := by
  simp only [beginFrame, if_true]
  have h1 : ∀ (l : List ℕ) (s2 : StripState),
      (l.foldl (sendRaw M_ISR.CLI_HIGH) s2).sregSave = s2.sregSave :=
    fun l s2 => foldl_sendRaw_sregSave M_ISR.CLI_HIGH (by simp) l s2
  split
  · rw [h1]
  · rfl

/-- Away from the per-frame policy, `end` leaves SREG unchanged. -/
lemma endFrame_sreg (chip : M_chip) (isr : M_ISR) (st : StripState)
    (h : isr ≠ M_ISR.CLI_HIGH) :
    (endFrame chip isr st).sreg = st.sreg := by
  simp only [endFrame, if_neg h]
  have h1 : ∀ (l : List ℕ) (s2 : StripState),
      (l.foldl (sendRaw isr) s2).sreg = s2.sreg :=
    fun l s2 => foldl_sendRaw_sreg isr l s2
  split
  · rw [h1]
  · rfl

/-- Under the per-frame policy, `end` restores the saved SREG. -/
lemma endFrame_sreg_high (chip : M_chip) (st : StripState) :
    (endFrame chip M_ISR.CLI_HIGH st).sreg = st.sregSave := by
  simp only [endFrame, if_true]
  have h1 : ∀ (l : List ℕ) (s2 : StripState),
      (l.foldl (sendRaw M_ISR.CLI_HIGH) s2).sreg = s2.sreg :=
    fun l s2 => foldl_sendRaw_sreg M_ISR.CLI_HIGH l s2
  split
  · rw [h1]
  · rfl

/-- The body of `show()` preserves SREG under every policy. -/
lemma showBody_sreg (chip : M_chip) (order : ℕ) (isr : M_ISR) (s : StripState) :
    (showBody chip order isr s).sreg = s.sreg := by
  unfold showBody
  have h1 : ∀ (l : List ℕ) (s2 : StripState),
      (l.foldl (showStep chip order isr) s2).sreg = s2.sreg :=
    fun l s2 => foldl_proj_eq StripState.sreg (showStep chip order isr)
      (fun s i => send_sreg chip order isr s (s.leds.getD i ⟨0, 0, 0⟩)
        (if chip = M_chip.LED_WS6812 then s.white.getD i 0 else 0)) l s2
  rw [h1]
  split <;> rfl

/-- Under the per-frame policy, the body of `show()` preserves the saved
SREG copy. -/
lemma showBody_sregSave (chip : M_chip) (order : ℕ) (s : StripState) :
    (showBody chip order M_ISR.CLI_HIGH s).sregSave = s.sregSave := by
  unfold showBody
  have h1 : ∀ (l : List ℕ) (s2 : StripState),
      (l.foldl (showStep chip order M_ISR.CLI_HIGH) s2).sregSave = s2.sregSave :=
    fun l s2 => foldl_proj_eq StripState.sregSave (showStep chip order M_ISR.CLI_HIGH)
      (fun s i => send_sregSave chip order M_ISR.CLI_HIGH s
        (s.leds.getD i ⟨0, 0, 0⟩)
        (if chip = M_chip.LED_WS6812 then s.white.getD i 0 else 0)
        (by decide) (by decide)) l s2
  rw [h1]
  split <;> rfl

/-- Whatever state a frame body produced, a complete begin-body-end frame
restores SREG to its entry value provided the body preserved SREG and,
under the per-frame policy, the saved SREG copy. -/
lemma frame_sreg_restore (chip : M_chip) (isr : M_ISR) (st mid : StripState)
    (hg1 : mid.sreg = (beginFrame chip isr st).sreg)
    (hg2 : isr = M_ISR.CLI_HIGH → mid.sregSave = (beginFrame chip isr st).sregSave) :
    (endFrame chip isr mid).sreg = st.sreg := by
  by_cases h : isr = M_ISR.CLI_HIGH
  · subst h
    rw [endFrame_sreg_high, hg2 rfl, beginFrame_sregSave]
  · rw [endFrame_sreg chip isr _ h, hg1, beginFrame_sreg chip isr st h]

/-- C7.  For every interrupt-masking policy, SREG after each completed
critical section equals its value at that section's entry: after every
`sendRaw` (the per-byte section), after every `send` (the per-pixel
section), and after every complete `begin` … `end` frame, both for a
streamed pixel list and for the buffered `show()`; so no complete operation
sequence leaves interrupts masked. -/
theorem c7_sreg_restored (chip : M_chip) (order : ℕ) (isr : M_ISR)
    (st : StripState) (d : ℕ) (color : mData) (w : ℕ)
    (ps : List (mData × ℕ)) :
    (sendRaw isr st d).sreg = st.sreg ∧
    (send chip order isr st color w).sreg = st.sreg ∧
    (endFrame chip isr (ps.foldl (fun s p => send chip order isr s p.1 p.2)
      (beginFrame chip isr st))).sreg = st.sreg ∧
    (showFrame chip order isr st).sreg = st.sreg := by
  have hstream1 : ∀ (l : List (mData × ℕ)) (s : StripState),
      (l.foldl (fun s p => send chip order isr s p.1 p.2) s).sreg = s.sreg := by
    intro l
    induction l with
    | nil => intro s; rfl
    | cons x xs ih => intro s; rw [List.foldl_cons, ih, send_sreg]
  have hstream2 : isr = M_ISR.CLI_HIGH → ∀ (l : List (mData × ℕ))
      (s : StripState),
      (l.foldl (fun s p => send chip order isr s p.1 p.2) s).sregSave
        = s.sregSave := by
    intro h l
    subst h
    induction l with
    | nil => intro s; rfl
    | cons x xs ih =>
      intro s
      rw [List.foldl_cons, ih, send_sregSave]
      · decide
      · decide
  refine ⟨sendRaw_sreg isr st d, send_sreg chip order isr st color w, ?_, ?_⟩
  · exact frame_sreg_restore chip isr st _
      (hstream1 ps (beginFrame chip isr st))
      (fun h => hstream2 h ps (beginFrame chip isr st))
  · exact frame_sreg_restore chip isr st _
      (showBody_sreg chip order isr (beginFrame chip isr st))
      (fun h => by
        subst h
        exact showBody_sregSave chip order (beginFrame chip M_ISR.CLI_HIGH st))

/-- A fold of `sendRaw` leaves the user-visible buffers and settings
unchanged. -/
lemma foldl_sendRaw_userView (isr : M_ISR) (l : List ℕ) (s : StripState) :
    (l.foldl (sendRaw isr) s).leds = s.leds ∧
    (l.foldl (sendRaw isr) s).white = s.white ∧
    (l.foldl (sendRaw isr) s).bright = s.bright ∧
    (l.foldl (sendRaw isr) s).maxCurrent = s.maxCurrent := by
  induction l generalizing s with
  | nil => exact ⟨rfl, rfl, rfl, rfl⟩
  | cons x xs ih =>
    have hr := sendRaw_userView isr s x
    have hi := ih (sendRaw isr s x)
    rw [List.foldl_cons]
    exact ⟨hi.1.trans hr.1, hi.2.1.trans hr.2.1, hi.2.2.1.trans hr.2.2.1,
      hi.2.2.2.trans hr.2.2.2.1⟩

/-- `begin` leaves the pixel buffers, the stored brightness and the current
budget unchanged. -/
lemma beginFrame_userView (chip : M_chip) (isr : M_ISR) (st : StripState) :
    (beginFrame chip isr st).leds = st.leds ∧
    (beginFrame chip isr st).white = st.white ∧
    (beginFrame chip isr st).bright = st.bright ∧
    (beginFrame chip isr st).maxCurrent = st.maxCurrent := by
  simp only [beginFrame]
  split <;> split <;>
    refine ⟨?_, ?_, ?_, ?_⟩ <;>
    first
      | rfl
      | exact (foldl_sendRaw_userView _ _ _).1.trans rfl
      | exact (foldl_sendRaw_userView _ _ _).2.1.trans rfl
      | exact (foldl_sendRaw_userView _ _ _).2.2.1.trans rfl
      | exact (foldl_sendRaw_userView _ _ _).2.2.2.trans rfl

/-- `end` leaves the pixel buffers, the stored brightness and the current
budget unchanged. -/
lemma endFrame_userView (chip : M_chip) (isr : M_ISR) (st : StripState) :
    (endFrame chip isr st).leds = st.leds ∧
    (endFrame chip isr st).white = st.white ∧
    (endFrame chip isr st).bright = st.bright ∧
    (endFrame chip isr st).maxCurrent = st.maxCurrent := by
  simp only [endFrame]
  split <;> split <;>
    refine ⟨?_, ?_, ?_, ?_⟩ <;>
    first
      | rfl
      | exact (foldl_sendRaw_userView _ _ _).1.trans rfl
      | exact (foldl_sendRaw_userView _ _ _).2.1.trans rfl
      | exact (foldl_sendRaw_userView _ _ _).2.2.1.trans rfl
      | exact (foldl_sendRaw_userView _ _ _).2.2.2.trans rfl

/-- The send loop of `show()` leaves the user-visible state unchanged. -/
lemma foldl_showStep_userView (chip : M_chip) (order : ℕ) (isr : M_ISR)
    (l : List ℕ) (s : StripState) :
    (l.foldl (showStep chip order isr) s).leds = s.leds ∧
    (l.foldl (showStep chip order isr) s).white = s.white ∧
    (l.foldl (showStep chip order isr) s).bright = s.bright ∧
    (l.foldl (showStep chip order isr) s).maxCurrent = s.maxCurrent := by
  induction l generalizing s with
  | nil => exact ⟨rfl, rfl, rfl, rfl⟩
  | cons x xs ih =>
    have hr := send_userView chip order isr s (s.leds.getD x ⟨0, 0, 0⟩)
      (if chip = M_chip.LED_WS6812 then s.white.getD x 0 else 0)
    have hi := ih (showStep chip order isr s x)
    rw [List.foldl_cons]
    exact ⟨hi.1.trans hr.1, hi.2.1.trans hr.2.1, hi.2.2.1.trans hr.2.2.1,
      hi.2.2.2.trans hr.2.2.2.1⟩

/-- The body of `show()` leaves the user-visible state unchanged. -/
lemma showBody_userView (chip : M_chip) (order : ℕ) (isr : M_ISR)
    (s : StripState) :
    (showBody chip order isr s).leds = s.leds ∧
    (showBody chip order isr s).white = s.white ∧
    (showBody chip order isr s).bright = s.bright ∧
    (showBody chip order isr s).maxCurrent = s.maxCurrent := by
  simp only [showBody]
  split <;>
    refine ⟨?_, ?_, ?_, ?_⟩ <;>
    first
      | exact (foldl_showStep_userView _ _ _ _ _).1.trans rfl
      | exact (foldl_showStep_userView _ _ _ _ _).2.1.trans rfl
      | exact (foldl_showStep_userView _ _ _ _ _).2.2.1.trans rfl
      | exact (foldl_showStep_userView _ _ _ _ _).2.2.2.trans rfl

/-- C9.  `show()` is read-only on the controller's user-visible state: the
pixel array, the white array, the stored brightness and the configured
current budget are all unchanged by a full `show()`; brightness and
current-limit scaling touch only the bytes handed to the output. -/
theorem c9_show_readonly (chip : M_chip) (order : ℕ) (isr : M_ISR)
    (st : StripState) :
    (showFrame chip order isr st).leds = st.leds ∧
    (showFrame chip order isr st).white = st.white ∧
    (showFrame chip order isr st).bright = st.bright ∧
    (showFrame chip order isr st).maxCurrent = st.maxCurrent := by
  have h1 := beginFrame_userView chip isr st
  have h2 := showBody_userView chip order isr (beginFrame chip isr st)
  have h3 := endFrame_userView chip isr
    (showBody chip order isr (beginFrame chip isr st))
  exact ⟨(h3.1.trans h2.1).trans h1.1,
    (h3.2.1.trans h2.2.1).trans h1.2.1,
    (h3.2.2.1.trans h2.2.2.1).trans h1.2.2.1,
    (h3.2.2.2.trans h2.2.2.2).trans h1.2.2.2⟩

/-- `correctBright` with its let-bindings resolved. -/
lemma correctBright_eq (ledMax ledIdle : ℕ) (maxCurrent : ℤ)
    (leds : List mData) (bright : ℕ) :
    correctBright ledMax ledIdle maxCurrent leds bright =
      if (activeCurrent ledMax leds bright : ℤ) = 0 then (bright : ℤ)
      else if (activeCurrent ledMax leds bright : ℤ)
          + idleCurrent ledIdle leds.length < maxCurrent then (bright : ℤ)
      else Int.tdiv ((maxCurrent - idleCurrent ledIdle leds.length) * bright)
        (activeCurrent ledMax leds bright) := rfl

/-- C2 amended.  With active and idle current as computed by the code:
if active is 0 the requested brightness is returned unchanged; if
active + idle is within (at most) the budget the requested brightness is
returned unchanged (at exact equality the rescale formula itself yields
`bright`); otherwise, provided the budget covers at least the idle current,
the result is the truncated rescale `(budget - idle) * bright / active`,
which already lies in [0, 255] (no clamping is performed by the code, and
for a budget below the idle current the negative intermediate value makes
the uint8_t conversion undefined instead of clamping to 0). -/
theorem c2_correctBright_amended (ledMax ledIdle : ℕ) (maxCurrent : ℤ)
    (leds : List mData) (bright : ℕ) (hb : bright ≤ 255) :
    (activeCurrent ledMax leds bright = 0 →
      correctBright ledMax ledIdle maxCurrent leds bright = bright) ∧
    ((activeCurrent ledMax leds bright : ℤ) + idleCurrent ledIdle leds.length
        ≤ maxCurrent →
      correctBright ledMax ledIdle maxCurrent leds bright = bright) ∧
    (activeCurrent ledMax leds bright ≠ 0 →
      (idleCurrent ledIdle leds.length : ℤ) ≤ maxCurrent →
      maxCurrent ≤ (activeCurrent ledMax leds bright : ℤ)
          + idleCurrent ledIdle leds.length →
      correctBright ledMax ledIdle maxCurrent leds bright
          = (maxCurrent - idleCurrent ledIdle leds.length) * bright
            / activeCurrent ledMax leds bright ∧
        0 ≤ correctBright ledMax ledIdle maxCurrent leds bright ∧
        correctBright ledMax ledIdle maxCurrent leds bright ≤ 255) := by
  have hsum0 : (0 : ℤ) ≤ activeCurrent ledMax leds bright := Int.natCast_nonneg _
  have hbr0 : (0 : ℤ) ≤ (bright : ℤ) := Int.natCast_nonneg _
  refine ⟨?_, ?_, ?_⟩
  · intro h
    rw [correctBright_eq, if_pos (by exact_mod_cast h)]
  · intro h
    rw [correctBright_eq]
    by_cases h1 : (activeCurrent ledMax leds bright : ℤ) = 0
    · rw [if_pos h1]
    · rw [if_neg h1]
      by_cases h2 : (activeCurrent ledMax leds bright : ℤ)
          + idleCurrent ledIdle leds.length < maxCurrent
      · rw [if_pos h2]
      · rw [if_neg h2]
        have heq : maxCurrent - idleCurrent ledIdle leds.length
            = activeCurrent ledMax leds bright := by omega
        rw [heq, tdiv_eq_ediv_of_nonneg (mul_nonneg hsum0 hbr0) hsum0,
          Int.mul_ediv_cancel_left _ h1]
  · intro h1 h2 h3
    have h1z : (activeCurrent ledMax leds bright : ℤ) ≠ 0 := by
      exact_mod_cast h1
    have hspos : (0 : ℤ) < activeCurrent ledMax leds bright :=
      lt_of_le_of_ne hsum0 (Ne.symm h1z)
    have hnum : (0 : ℤ) ≤ (maxCurrent - idleCurrent ledIdle leds.length)
        * bright := mul_nonneg (by omega) hbr0
    have hres : correctBright ledMax ledIdle maxCurrent leds bright
        = (maxCurrent - idleCurrent ledIdle leds.length) * bright
          / activeCurrent ledMax leds bright := by
      rw [correctBright_eq, if_neg h1z, if_neg (by omega),
        tdiv_eq_ediv_of_nonneg hnum hsum0]
    refine ⟨hres, ?_, ?_⟩
    · rw [hres]
      exact Int.ediv_nonneg hnum hsum0
    · rw [hres]
      have hle : (maxCurrent - idleCurrent ledIdle leds.length) * bright
          ≤ (activeCurrent ledMax leds bright : ℤ) * bright :=
        mul_le_mul_of_nonneg_right (by omega) hbr0
      have hdiv := Int.ediv_le_ediv hspos hle
      rw [Int.mul_ediv_cancel_left _ h1z] at hdiv
      omega

/-- C2 amended witness: a 2-pixel full-white WS2811 strip with a 10 mA
budget, over budget, rescaled within range. -/
theorem c2_correctBright_amended_witness :
    0 ≤ correctBright 46 2000 10 (List.replicate 2 ⟨255, 255, 255⟩) 255 ∧
    correctBright 46 2000 10 (List.replicate 2 ⟨255, 255, 255⟩) 255 ≤ 255 := by
  have h := (c2_correctBright_amended 46 2000 10
    (List.replicate 2 ⟨255, 255, 255⟩) 255 (by decide)).2.2
    (by decide) (by decide) (by decide)
  exact ⟨h.2.1, h.2.2⟩

/-- C3 counterexample.  On a 25-pixel full-white WS2811 strip with budget
1183 mA and requested brightness 255, the limiter returns 254; re-running
the code's own current estimate at brightness 254 gives 1134 mA active plus
50 mA idle = 1184 mA, which exceeds the budget.  The flooring plateaus in
the estimate mean a one-step-lower brightness does not lower the estimated
current, so the claimed invariant fails. -/
theorem c3_reestimate_exceeds_budget :
    correctBright 46 2000 1183 (List.replicate 25 ⟨255, 255, 255⟩) 255
      = 254 ∧
    ¬ ((activeCurrent 46 (List.replicate 25 ⟨255, 255, 255⟩)
          (correctBright 46 2000 1183
            (List.replicate 25 ⟨255, 255, 255⟩) 255).toNat : ℤ)
        + idleCurrent 2000 25 ≤ 1183) := by
  constructor
  · decide
  · decide

/-- C3 amended.  Provided the configured budget covers at least the idle
current, the brightness returned by `correctBright` never exceeds the
requested brightness, and it keeps the current within budget in the linear
re-estimate sense: active · returned ≤ (budget − idle) · requested, so the
active current rescaled proportionally to the returned brightness stays
within the budget.  (Because of flooring plateaus in the per-channel and
per-strip estimates, re-running the literal integer estimation formula at
the returned brightness can still exceed the budget slightly.)  The
end-to-end half of the claim stands: on a 4-pixel full-white WS2812 strip
with a 50 mA budget, `show()`'s internal brightness is 111, strictly less
than the requested 255. -/
theorem c3_current_limit_amended :
    (∀ (ledMax ledIdle : ℕ) (maxCurrent : ℤ) (leds : List mData) (bright : ℕ),
      (idleCurrent ledIdle leds.length : ℤ) ≤ maxCurrent →
      correctBright ledMax ledIdle maxCurrent leds bright ≤ bright ∧
      (activeCurrent ledMax leds bright : ℤ)
          * correctBright ledMax ledIdle maxCurrent leds bright
        ≤ (maxCurrent - idleCurrent ledIdle leds.length) * bright) ∧
    ((showFrame M_chip.LED_WS2812 36 M_ISR.CLI_OFF
        { leds := List.replicate 4 ⟨255, 255, 255⟩, white := [], bright := 255,
          showBright := 255, maxCurrent := 50, sreg := 128, sregSave := 0,
          out := [] }).showBright = 111 ∧ (111 : ℕ) < 255) := by
  constructor
  · intro ledMax ledIdle maxCurrent leds bright hbudget
    have hsum0 : (0 : ℤ) ≤ activeCurrent ledMax leds bright := Int.natCast_nonneg _
    have hbr0 : (0 : ℤ) ≤ (bright : ℤ) := Int.natCast_nonneg _
    rw [correctBright_eq]
    by_cases h1 : (activeCurrent ledMax leds bright : ℤ) = 0
    · rw [if_pos h1, h1]
      exact ⟨le_refl _, by simpa using mul_nonneg (by omega : (0:ℤ) ≤ maxCurrent
        - idleCurrent ledIdle leds.length) hbr0⟩
    · rw [if_neg h1]
      by_cases h2 : (activeCurrent ledMax leds bright : ℤ)
          + idleCurrent ledIdle leds.length < maxCurrent
      · rw [if_pos h2]
        refine ⟨le_refl _, ?_⟩
        exact mul_le_mul_of_nonneg_right (by omega) hbr0
      · rw [if_neg h2,
          tdiv_eq_ediv_of_nonneg (mul_nonneg (by omega) hbr0) hsum0]
        have hspos : (0 : ℤ) < activeCurrent ledMax leds bright :=
          lt_of_le_of_ne hsum0 (Ne.symm h1)
        constructor
        · have hle : (maxCurrent - idleCurrent ledIdle leds.length) * bright
              ≤ (activeCurrent ledMax leds bright : ℤ) * bright :=
            mul_le_mul_of_nonneg_right (by omega) hbr0
          have hdiv := Int.ediv_le_ediv hspos hle
          rw [Int.mul_ediv_cancel_left _ h1] at hdiv
          exact hdiv
        · have := @Int.ediv_mul_le
            ((maxCurrent - idleCurrent ledIdle leds.length) * bright)
            ((activeCurrent ledMax leds bright : ℤ)) h1
          rw [mul_comm] at this
          omega
  · exact ⟨by decide, by decide⟩

/-- C3 amended witness: a 3-pixel full-white WS2811 strip, 10 mA budget. -/
theorem c3_current_limit_amended_witness :
    correctBright 46 2000 10 (List.replicate 3 ⟨255, 255, 255⟩) 255
      ≤ ((255 : ℕ) : ℤ) ∧
    (activeCurrent 46 (List.replicate 3 ⟨255, 255, 255⟩) 255 : ℤ)
        * correctBright 46 2000 10 (List.replicate 3 ⟨255, 255, 255⟩) 255
      ≤ (10 - idleCurrent 2000 (List.replicate 3
          (⟨255, 255, 255⟩ : mData)).length) * ((255 : ℕ) : ℤ) :=
  c3_current_limit_amended.1 46 2000 10 (List.replicate 3 ⟨255, 255, 255⟩)
    255 (by decide)

/-- The inverse of the per-row index map: row = n / rowWidth, column
recovered according to the row direction. -/
def rowIndexInv (mtype : ℕ) (rw : ℤ) (n : ℤ) : ℤ × ℤ :=
  (if mtype ≠ 0 ∨ (n / rw) % 2 = 0 then n % rw else rw - 1 - n % rw, n / rw)

/-- The row-direction map of `getPixNumber` is a bijection from the
canonical coordinate box onto the contiguous range [0, rowWidth·rows). -/
lemma rowIndex_bijOn (mtype : ℕ) (rw rh : ℤ) (hrw : 0 ≤ rw) (_hrh : 0 ≤ rh) :
    Set.BijOn (rowIndex mtype rw) (Set.Ico 0 rw ×ˢ Set.Ico 0 rh)
      (Set.Ico 0 (rw * rh)) := by
  have hdecomp : ∀ u v : ℤ, 0 ≤ u → u < rw →
      (v * rw + u) / rw = v ∧ (v * rw + u) % rw = u := by
    intro u v hu0 hu1
    have hrw0 : rw ≠ 0 := by omega
    constructor
    · rw [add_comm, Int.add_mul_ediv_right u v hrw0,
        Int.ediv_eq_zero_of_lt hu0 hu1, zero_add]
    · rw [add_comm, Int.add_mul_emod_self, Int.emod_eq_of_lt hu0 hu1]
  have hinv : Set.InvOn (rowIndexInv mtype rw) (rowIndex mtype rw)
      (Set.Ico 0 rw ×ˢ Set.Ico 0 rh) (Set.Ico 0 (rw * rh)) := by
    constructor
    · rintro ⟨u, v⟩ hp
      simp only [Set.mem_prod, Set.mem_Ico] at hp
      obtain ⟨⟨hu0, hu1⟩, hv0, hv1⟩ := hp
      by_cases hc : mtype ≠ 0 ∨ v % 2 = 0
      · have hval : rowIndex mtype rw (u, v) = v * rw + u := by
          simp only [rowIndex, if_pos hc]
        have hd := hdecomp u v hu0 hu1
        unfold rowIndexInv
        rw [hval, hd.1, hd.2, if_pos hc]
      · have hval : rowIndex mtype rw (u, v) = v * rw + (rw - u - 1) := by
          simp only [rowIndex, if_neg hc]
          ring
        have hd := hdecomp (rw - u - 1) v (by omega) (by omega)
        unfold rowIndexInv
        rw [hval, hd.1, hd.2, if_neg hc, Prod.mk.injEq]
        exact ⟨by omega, rfl⟩
    · rintro n hn
      simp only [Set.mem_Ico] at hn
      have hrw0 : 0 < rw := by
        rcases (mul_pos_iff.mp (lt_of_le_of_lt hn.1 hn.2)) with ⟨h, _⟩ | ⟨h, _⟩
        · exact h
        · omega
      have hsplit := Int.ediv_add_emod n rw
      rw [mul_comm] at hsplit
      have hm0 : 0 ≤ n % rw := Int.emod_nonneg n (by omega)
      have hm1 : n % rw < rw := Int.emod_lt_of_pos n hrw0
      by_cases hc : mtype ≠ 0 ∨ (n / rw) % 2 = 0
      · simp only [rowIndexInv, if_pos hc, rowIndex]
        omega
      · simp only [rowIndexInv, if_neg hc, rowIndex]
        omega
  apply hinv.bijOn
  · rintro ⟨u, v⟩ hp
    simp only [Set.mem_prod, Set.mem_Ico] at hp
    obtain ⟨⟨hu0, hu1⟩, hv0, hv1⟩ := hp
    simp only [rowIndex, Set.mem_Ico]
    have hvr : 0 ≤ v * rw := mul_nonneg hv0 hrw
    have hvr2 : v * rw + rw ≤ rw * rh := by nlinarith
    split <;> omega
  · rintro n hn
    simp only [Set.mem_Ico] at hn
    have hrw0 : 0 < rw := by
      rcases (mul_pos_iff.mp (lt_of_le_of_lt hn.1 hn.2)) with ⟨h, _⟩ | ⟨h, _⟩
      · exact h
      · omega
    have hd0 : 0 ≤ n / rw := Int.ediv_nonneg hn.1 hrw0.le
    have hd1 : n / rw < rh := by
      rw [Int.ediv_lt_iff_lt_mul hrw0]
      rw [mul_comm rh rw]
      exact hn.2
    have hm0 : 0 ≤ n % rw := Int.emod_nonneg n (by omega)
    have hm1 : n % rw < rw := Int.emod_lt_of_pos n hrw0
    simp only [rowIndexInv, Set.mem_prod, Set.mem_Ico]
    refine ⟨?_, hd0, hd1⟩
    split <;> omega


/-- Config 0 transform (identity) is a bijection between the coordinate
boxes. -/
lemma thisXY_bijOn_0 (w h : ℤ) :
    Set.BijOn (thisXY 0 w h) (Set.Ico 0 w ×ˢ Set.Ico 0 h)
      (Set.Ico 0 w ×ˢ Set.Ico 0 h) := by
  have hinv : Set.InvOn (fun q : ℤ × ℤ => q) (thisXY 0 w h)
      (Set.Ico 0 w ×ˢ Set.Ico 0 h) (Set.Ico 0 w ×ˢ Set.Ico 0 h) := by
    constructor
    · rintro ⟨x, y⟩ hp
      simp only [Set.mem_prod, Set.mem_Ico] at hp
      simp [thisXY, Prod.ext_iff] <;> omega
    · rintro ⟨u, v⟩ hq
      simp only [Set.mem_prod, Set.mem_Ico] at hq
      simp [thisXY, Prod.ext_iff] <;> omega
  apply hinv.bijOn
  · rintro ⟨x, y⟩ hp
    simp only [Set.mem_prod, Set.mem_Ico] at hp
    simp [thisXY, Set.mem_prod, Set.mem_Ico] <;> omega
  · rintro ⟨u, v⟩ hq
    simp only [Set.mem_prod, Set.mem_Ico] at hq
    simp [Set.mem_prod, Set.mem_Ico] <;> omega

/-- Config 4 transform (transpose) is a bijection between the coordinate
boxes. -/
lemma thisXY_bijOn_4 (w h : ℤ) :
    Set.BijOn (thisXY 4 w h) (Set.Ico 0 w ×ˢ Set.Ico 0 h)
      (Set.Ico 0 h ×ˢ Set.Ico 0 w) := by
  have hinv : Set.InvOn (fun q : ℤ × ℤ => (q.2, q.1)) (thisXY 4 w h)
      (Set.Ico 0 w ×ˢ Set.Ico 0 h) (Set.Ico 0 h ×ˢ Set.Ico 0 w) := by
    constructor
    · rintro ⟨x, y⟩ hp
      simp only [Set.mem_prod, Set.mem_Ico] at hp
      simp [thisXY, Prod.ext_iff] <;> omega
    · rintro ⟨u, v⟩ hq
      simp only [Set.mem_prod, Set.mem_Ico] at hq
      simp [thisXY, Prod.ext_iff] <;> omega
  apply hinv.bijOn
  · rintro ⟨x, y⟩ hp
    simp only [Set.mem_prod, Set.mem_Ico] at hp
    simp [thisXY, Set.mem_prod, Set.mem_Ico] <;> omega
  · rintro ⟨u, v⟩ hq
    simp only [Set.mem_prod, Set.mem_Ico] at hq
    simp [Set.mem_prod, Set.mem_Ico] <;> omega

/-- Config 1 transform (vertical flip) is a bijection between the coordinate
boxes. -/
lemma thisXY_bijOn_1 (w h : ℤ) :
    Set.BijOn (thisXY 1 w h) (Set.Ico 0 w ×ˢ Set.Ico 0 h)
      (Set.Ico 0 w ×ˢ Set.Ico 0 h) := by
  have hinv : Set.InvOn (fun q : ℤ × ℤ => (q.1, h - q.2 - 1)) (thisXY 1 w h)
      (Set.Ico 0 w ×ˢ Set.Ico 0 h) (Set.Ico 0 w ×ˢ Set.Ico 0 h) := by
    constructor
    · rintro ⟨x, y⟩ hp
      simp only [Set.mem_prod, Set.mem_Ico] at hp
      simp [thisXY, Prod.ext_iff] <;> omega
    · rintro ⟨u, v⟩ hq
      simp only [Set.mem_prod, Set.mem_Ico] at hq
      simp [thisXY, Prod.ext_iff] <;> omega
  apply hinv.bijOn
  · rintro ⟨x, y⟩ hp
    simp only [Set.mem_prod, Set.mem_Ico] at hp
    simp [thisXY, Set.mem_prod, Set.mem_Ico] <;> omega
  · rintro ⟨u, v⟩ hq
    simp only [Set.mem_prod, Set.mem_Ico] at hq
    simp [Set.mem_prod, Set.mem_Ico] <;> omega

/-- Config 13 transform (flip then transpose) is a bijection between the coordinate
boxes. -/
lemma thisXY_bijOn_13 (w h : ℤ) :
    Set.BijOn (thisXY 13 w h) (Set.Ico 0 w ×ˢ Set.Ico 0 h)
      (Set.Ico 0 h ×ˢ Set.Ico 0 w) := by
  have hinv : Set.InvOn (fun q : ℤ × ℤ => (q.2, h - q.1 - 1)) (thisXY 13 w h)
      (Set.Ico 0 w ×ˢ Set.Ico 0 h) (Set.Ico 0 h ×ˢ Set.Ico 0 w) := by
    constructor
    · rintro ⟨x, y⟩ hp
      simp only [Set.mem_prod, Set.mem_Ico] at hp
      simp [thisXY, Prod.ext_iff] <;> omega
    · rintro ⟨u, v⟩ hq
      simp only [Set.mem_prod, Set.mem_Ico] at hq
      simp [thisXY, Prod.ext_iff] <;> omega
  apply hinv.bijOn
  · rintro ⟨x, y⟩ hp
    simp only [Set.mem_prod, Set.mem_Ico] at hp
    simp [thisXY, Set.mem_prod, Set.mem_Ico] <;> omega
  · rintro ⟨u, v⟩ hq
    simp only [Set.mem_prod, Set.mem_Ico] at hq
    simp [Set.mem_prod, Set.mem_Ico] <;> omega

/-- Config 10 transform (both flips) is a bijection between the coordinate
boxes. -/
lemma thisXY_bijOn_10 (w h : ℤ) :
    Set.BijOn (thisXY 10 w h) (Set.Ico 0 w ×ˢ Set.Ico 0 h)
      (Set.Ico 0 w ×ˢ Set.Ico 0 h) := by
  have hinv : Set.InvOn (fun q : ℤ × ℤ => (w - q.1 - 1, h - q.2 - 1)) (thisXY 10 w h)
      (Set.Ico 0 w ×ˢ Set.Ico 0 h) (Set.Ico 0 w ×ˢ Set.Ico 0 h) := by
    constructor
    · rintro ⟨x, y⟩ hp
      simp only [Set.mem_prod, Set.mem_Ico] at hp
      simp [thisXY, Prod.ext_iff] <;> omega
    · rintro ⟨u, v⟩ hq
      simp only [Set.mem_prod, Set.mem_Ico] at hq
      simp [thisXY, Prod.ext_iff] <;> omega
  apply hinv.bijOn
  · rintro ⟨x, y⟩ hp
    simp only [Set.mem_prod, Set.mem_Ico] at hp
    simp [thisXY, Set.mem_prod, Set.mem_Ico] <;> omega
  · rintro ⟨u, v⟩ hq
    simp only [Set.mem_prod, Set.mem_Ico] at hq
    simp [Set.mem_prod, Set.mem_Ico] <;> omega

/-- Config 14 transform (both flips then transpose) is a bijection between the coordinate
boxes. -/
lemma thisXY_bijOn_14 (w h : ℤ) :
    Set.BijOn (thisXY 14 w h) (Set.Ico 0 w ×ˢ Set.Ico 0 h)
      (Set.Ico 0 h ×ˢ Set.Ico 0 w) := by
  have hinv : Set.InvOn (fun q : ℤ × ℤ => (w - q.2 - 1, h - q.1 - 1)) (thisXY 14 w h)
      (Set.Ico 0 w ×ˢ Set.Ico 0 h) (Set.Ico 0 h ×ˢ Set.Ico 0 w) := by
    constructor
    · rintro ⟨x, y⟩ hp
      simp only [Set.mem_prod, Set.mem_Ico] at hp
      simp [thisXY, Prod.ext_iff] <;> omega
    · rintro ⟨u, v⟩ hq
      simp only [Set.mem_prod, Set.mem_Ico] at hq
      simp [thisXY, Prod.ext_iff] <;> omega
  apply hinv.bijOn
  · rintro ⟨x, y⟩ hp
    simp only [Set.mem_prod, Set.mem_Ico] at hp
    simp [thisXY, Set.mem_prod, Set.mem_Ico] <;> omega
  · rintro ⟨u, v⟩ hq
    simp only [Set.mem_prod, Set.mem_Ico] at hq
    simp [Set.mem_prod, Set.mem_Ico] <;> omega

/-- Config 11 transform (horizontal flip) is a bijection between the coordinate
boxes. -/
lemma thisXY_bijOn_11 (w h : ℤ) :
    Set.BijOn (thisXY 11 w h) (Set.Ico 0 w ×ˢ Set.Ico 0 h)
      (Set.Ico 0 w ×ˢ Set.Ico 0 h) := by
  have hinv : Set.InvOn (fun q : ℤ × ℤ => (w - q.1 - 1, q.2)) (thisXY 11 w h)
      (Set.Ico 0 w ×ˢ Set.Ico 0 h) (Set.Ico 0 w ×ˢ Set.Ico 0 h) := by
    constructor
    · rintro ⟨x, y⟩ hp
      simp only [Set.mem_prod, Set.mem_Ico] at hp
      simp [thisXY, Prod.ext_iff] <;> omega
    · rintro ⟨u, v⟩ hq
      simp only [Set.mem_prod, Set.mem_Ico] at hq
      simp [thisXY, Prod.ext_iff] <;> omega
  apply hinv.bijOn
  · rintro ⟨x, y⟩ hp
    simp only [Set.mem_prod, Set.mem_Ico] at hp
    simp [thisXY, Set.mem_prod, Set.mem_Ico] <;> omega
  · rintro ⟨u, v⟩ hq
    simp only [Set.mem_prod, Set.mem_Ico] at hq
    simp [Set.mem_prod, Set.mem_Ico] <;> omega

/-- Config 7 transform (transpose of horizontal flip) is a bijection between the coordinate
boxes. -/
lemma thisXY_bijOn_7 (w h : ℤ) :
    Set.BijOn (thisXY 7 w h) (Set.Ico 0 w ×ˢ Set.Ico 0 h)
      (Set.Ico 0 h ×ˢ Set.Ico 0 w) := by
  have hinv : Set.InvOn (fun q : ℤ × ℤ => (w - q.2 - 1, q.1)) (thisXY 7 w h)
      (Set.Ico 0 w ×ˢ Set.Ico 0 h) (Set.Ico 0 h ×ˢ Set.Ico 0 w) := by
    constructor
    · rintro ⟨x, y⟩ hp
      simp only [Set.mem_prod, Set.mem_Ico] at hp
      simp [thisXY, Prod.ext_iff] <;> omega
    · rintro ⟨u, v⟩ hq
      simp only [Set.mem_prod, Set.mem_Ico] at hq
      simp [thisXY, Prod.ext_iff] <;> omega
  apply hinv.bijOn
  · rintro ⟨x, y⟩ hp
    simp only [Set.mem_prod, Set.mem_Ico] at hp
    simp [thisXY, Set.mem_prod, Set.mem_Ico] <;> omega
  · rintro ⟨u, v⟩ hq
    simp only [Set.mem_prod, Set.mem_Ico] at hq
    simp [Set.mem_prod, Set.mem_Ico] <;> omega

/-- `getPixNumber` before the uint16 conversion is a bijection from the
valid coordinate domain onto [0, width·height), for each of the 8 handled
configs and either scan order. -/
lemma getPixRaw_bijOn (cfg mtype : ℕ) (w h : ℤ) (hw : 0 ≤ w) (hh : 0 ≤ h)
    (hcfg : cfg = 0 ∨ cfg = 1 ∨ cfg = 4 ∨ cfg = 7 ∨ cfg = 10 ∨ cfg = 11 ∨
      cfg = 13 ∨ cfg = 14) :
    Set.BijOn (fun p : ℤ × ℤ => getPixRaw cfg mtype w h p.1 p.2)
      (Set.Ico 0 w ×ˢ Set.Ico 0 h) (Set.Ico 0 (w * h)) := by
  have hco : ∀ c : ℕ, (fun p : ℤ × ℤ => getPixRaw c mtype w h p.1 p.2)
      = (rowIndex mtype (matrixW c w h)) ∘ (thisXY c w h) := by
    intro c
    funext p
    cases p
    rfl
  rcases hcfg with rfl | rfl | rfl | rfl | rfl | rfl | rfl | rfl
  · rw [hco, show matrixW 0 w h = w by simp [matrixW]]
    exact (rowIndex_bijOn mtype w h hw hh).comp (thisXY_bijOn_0 w h)
  · rw [hco, show matrixW 1 w h = w by simp [matrixW]]
    exact (rowIndex_bijOn mtype w h hw hh).comp (thisXY_bijOn_1 w h)
  · rw [hco, show matrixW 4 w h = h by simp [matrixW], mul_comm w h]
    exact (rowIndex_bijOn mtype h w hh hw).comp (thisXY_bijOn_4 w h)
  · rw [hco, show matrixW 7 w h = h by simp [matrixW], mul_comm w h]
    exact (rowIndex_bijOn mtype h w hh hw).comp (thisXY_bijOn_7 w h)
  · rw [hco, show matrixW 10 w h = w by simp [matrixW]]
    exact (rowIndex_bijOn mtype w h hw hh).comp (thisXY_bijOn_10 w h)
  · rw [hco, show matrixW 11 w h = w by simp [matrixW]]
    exact (rowIndex_bijOn mtype w h hw hh).comp (thisXY_bijOn_11 w h)
  · rw [hco, show matrixW 13 w h = h by simp [matrixW], mul_comm w h]
    exact (rowIndex_bijOn mtype h w hh hw).comp (thisXY_bijOn_13 w h)
  · rw [hco, show matrixW 14 w h = h by simp [matrixW], mul_comm w h]
    exact (rowIndex_bijOn mtype h w hh hw).comp (thisXY_bijOn_14 w h)

/-- C4.  For each of the 8 handled corner/direction config codes and both
scan orders (zigzag when the matrix type is 0, row-major otherwise), and
for all uint8-sized dimensions, `getPixNumber` restricted to the valid
domain 0 ≤ x < width, 0 ≤ y < height is a bijection onto the contiguous
index range [0, width·height). -/
theorem c4_getPixNumber_bijOn (cfg mtype : ℕ) (w h : ℤ)
    (hcfg : cfg = 0 ∨ cfg = 1 ∨ cfg = 4 ∨ cfg = 7 ∨ cfg = 10 ∨ cfg = 11 ∨
      cfg = 13 ∨ cfg = 14)
    (hw0 : 0 ≤ w) (hw : w ≤ 255) (hh0 : 0 ≤ h) (hh : h ≤ 255) :
    Set.BijOn (fun p : ℤ × ℤ => getPixNumber cfg mtype w h p.1 p.2)
      (Set.Ico 0 w ×ˢ Set.Ico 0 h) (Set.Ico 0 (w * h)) := by
  have hraw := getPixRaw_bijOn cfg mtype w h hw0 hh0 hcfg
  have hwh : w * h ≤ 255 * 255 := mul_le_mul hw hh hh0 (by norm_num)
  have heq : Set.EqOn (fun p : ℤ × ℤ => getPixRaw cfg mtype w h p.1 p.2)
      (fun p : ℤ × ℤ => getPixNumber cfg mtype w h p.1 p.2)
      (Set.Ico 0 w ×ˢ Set.Ico 0 h) := by
    intro p hp
    have hv := hraw.mapsTo hp
    simp only [Set.mem_Ico] at hv
    show getPixRaw cfg mtype w h p.1 p.2 = getPixNumber cfg mtype w h p.1 p.2
    unfold getPixNumber
    rw [Int.emod_eq_of_lt hv.1 (by omega)]
  exact (Set.EqOn.bijOn_iff heq).mp hraw

/-- C4 witness: config 10 (both flips), row-major type, on a 4 by 5
matrix. -/
theorem c4_getPixNumber_bijOn_witness :
    Set.BijOn (fun p : ℤ × ℤ => getPixNumber 10 1 4 5 p.1 p.2)
      (Set.Ico 0 4 ×ˢ Set.Ico 0 5) (Set.Ico 0 (4 * 5)) :=
  c4_getPixNumber_bijOn 10 1 4 5 (by decide) (by decide) (by decide)
    (by decide) (by decide)

/-- Spec-side pixel index, transcribed from the claim's wording for
comparison against the source's `getPixNumber`: canonical coordinates from
the configured corner/direction transform; a row width equal to the height
exactly for the four axis-swapping codes 4, 13, 14, 7 and to the width
otherwise; serpentine order mapping odd canonical rows to
cy·rowWidth + (rowWidth − cx − 1) and even rows to cy·rowWidth + cx;
row-major order always forward. -/
def specPixelIndex (cfg mtype : ℕ) (w h x y : ℤ) : ℤ :=
  let c := thisXY cfg w h (x, y)
  let rowWidth := if cfg = 4 ∨ cfg = 13 ∨ cfg = 14 ∨ cfg = 7 then h else w
  if mtype = 0 then
    if c.2 % 2 = 1 then c.2 * rowWidth + (rowWidth - c.1 - 1)
    else c.2 * rowWidth + c.1
  else c.2 * rowWidth + c.1

/-- C5.  On the valid domain, `getPixNumber` computes exactly the claimed
formula (canonical transform, row width by axis-swap, serpentine odd-row
reversal, row-major forward), and on a 10-wide 3-high serpentine matrix
with the first pixel at the top-left (config code 0), coordinates (0,0),
(9,0), (0,1) land at buffer positions 0, 9, 19. -/
theorem c5_getPixNumber_formula :
    (∀ (cfg mtype : ℕ) (w h x y : ℤ),
      (cfg = 0 ∨ cfg = 1 ∨ cfg = 4 ∨ cfg = 7 ∨ cfg = 10 ∨ cfg = 11 ∨
        cfg = 13 ∨ cfg = 14) →
      0 ≤ w → w ≤ 255 → 0 ≤ h → h ≤ 255 →
      0 ≤ x → x < w → 0 ≤ y → y < h →
      getPixNumber cfg mtype w h x y = specPixelIndex cfg mtype w h x y) ∧
    getPixNumber 0 0 10 3 0 0 = 0 ∧
    getPixNumber 0 0 10 3 9 0 = 9 ∧
    getPixNumber 0 0 10 3 0 1 = 19 := by
  refine ⟨?_, by decide, by decide, by decide⟩
  intro cfg mtype w h x y hcfg hw0 hw hh0 hh hx0 hx1 hy0 hy1
  have hraw := getPixRaw_bijOn cfg mtype w h hw0 hh0 hcfg
  have hp : (x, y) ∈ Set.Ico 0 w ×ˢ Set.Ico 0 h :=
    Set.mem_prod.mpr ⟨Set.mem_Ico.mpr ⟨hx0, hx1⟩, Set.mem_Ico.mpr ⟨hy0, hy1⟩⟩
  have hv := hraw.mapsTo hp
  simp only [Set.mem_Ico] at hv
  have hwh : w * h ≤ 255 * 255 := mul_le_mul hw hh hh0 (by norm_num)
  have hcast : getPixNumber cfg mtype w h x y = getPixRaw cfg mtype w h x y := by
    unfold getPixNumber
    rw [Int.emod_eq_of_lt hv.1 (by omega)]
  have hspec : specPixelIndex cfg mtype w h x y =
      if mtype = 0 then
        if (thisXY cfg w h (x, y)).2 % 2 = 1 then
          (thisXY cfg w h (x, y)).2 * matrixW cfg w h
            + (matrixW cfg w h - (thisXY cfg w h (x, y)).1 - 1)
        else (thisXY cfg w h (x, y)).2 * matrixW cfg w h
          + (thisXY cfg w h (x, y)).1
      else (thisXY cfg w h (x, y)).2 * matrixW cfg w h
        + (thisXY cfg w h (x, y)).1 := rfl
  have hrowi : getPixRaw cfg mtype w h x y
      = rowIndex mtype (matrixW cfg w h) (thisXY cfg w h (x, y)) := rfl
  rw [hcast, hrowi, hspec]
  unfold rowIndex
  by_cases hm : mtype = 0
  · rcases Int.emod_two_eq ((thisXY cfg w h (x, y)).2) with h2 | h2
    · rw [if_pos (Or.inr h2), if_pos hm, if_neg (by omega)]
    · rw [if_neg (by omega), if_pos hm, if_pos h2]
      ring
  · rw [if_pos (Or.inl hm), if_neg hm]

/-- C5 witness: config 13, zigzag, 4 by 7 matrix at (2, 3). -/
theorem c5_getPixNumber_formula_witness :
    getPixNumber 13 0 4 7 2 3 = specPixelIndex 13 0 4 7 2 3 :=
  c5_getPixNumber_formula.1 13 0 4 7 2 3 (by decide) (by decide) (by decide)
    (by decide) (by decide) (by decide) (by decide) (by decide) (by decide)
